import Mathlib

/-!
# Verification of the resource_manager repository core

Shallow embedding of the two concurrency primitives of the repository:

* `AtomicList` / `BoundedList` (files `AtomicList.h`, `BoundedList.h`):
  the bounded append-only ring log.
* `ResourceManager` (file `ResourceManager.h`): the epoch-protected cell.

The embedding is sequential: each C++ member function becomes a pure
function from the pre-state to the post-state together with its return
value.  Heap allocation, which can fail in C++, is made explicit by
boolean oracle parameters (`nodeAllocOk`, `listAllocOk`): `true` means the
allocation succeeds, `false` means the allocator throws `bad_alloc` at
that point.  A C++ exception escaping a function is modelled by a `Bool`
component `threw` of the result (the state component records the
mutations performed before the throw point, as in C++).  Pointer identity
of heap-allocated `AtomicList` objects is modelled by a numeric `id`
drawn from a fresh-id supply `nextId` in the `BoundedList` state.
-/

/-- The record type `T` stored in the log.  The log never inspects a
record beyond its reported size, so we fix a concrete record type with a
payload and a reported `memoryUsage` (the C++ code is templated over `T`
with a `memoryUsage()` method returning `size_t`). -/
structure Rec where
  val : Nat
  sz : Nat
deriving DecidableEq, Repr

/-- The method `T::memoryUsage()` of a record. -/
def Rec.memoryUsage (r : Rec) : Nat := r.sz

/-- An `AtomicList<T>` object: a heap-allocated singly linked list with
an atomic head pointer.  `items` is the chain from the head (newest
first); `id` models the address of the allocation, so that shared-pointer
identity comparisons can be expressed. -/
structure AtomicList where
  id : Nat
  items : List Rec
deriving DecidableEq, Repr

/-- Embedding of `AtomicList::prepend(T&&)` (AtomicList.h lines 49-71).  Allocates a
node for the value and links it as the new head.  On allocation failure
(`nodeAllocOk = false`) the item is silently dropped and the list is
unchanged: the function is `noexcept`. -/
def AtomicList.prepend (l : AtomicList) (nodeAllocOk : Bool) (v : Rec) : AtomicList :=
  if nodeAllocOk then { l with items := v :: l.items } else l

/-- Embedding of `AtomicList::getSnapshot()` (AtomicList.h lines 76-81): the chain
reachable from the head at the moment of the call, newest first. -/
def AtomicList.getSnapshot (l : AtomicList) : List Rec := l.items

/-- The state of a `BoundedList<T>` instance (BoundedList.h lines 37-46).
`history` is the fixed-size ring of `shared_ptr<AtomicList<T>>`, where
`none` models a null `shared_ptr`. -/
structure BoundedList where
  current : AtomicList
  memoryUsage : Nat
  isRotating : Bool
  history : List (Option AtomicList)
  trash : List AtomicList
  ringBufferPos : Nat
  memoryThreshold : Nat
  maxHistory : Nat
  nextId : Nat
deriving DecidableEq, Repr

/-- The `BoundedList` constructor (BoundedList.h lines 51-61): member
initializers build an empty current list, a null-filled history of length
`maxHistory`, position 0 and zero accounted memory; then the body throws
`std::invalid_argument` when `memoryThreshold == 0 || maxHistory < 2`. -/
def BoundedList.init (memoryThreshold maxHistory : Nat) : Except String BoundedList :=
  if memoryThreshold = 0 ∨ maxHistory < 2 then
    .error "invalid_argument"
  else
    .ok { current := ⟨0, []⟩
          memoryUsage := 0
          isRotating := false
          history := List.replicate maxHistory none
          trash := []
          ringBufferPos := 0
          memoryThreshold := memoryThreshold
          maxHistory := maxHistory
          nextId := 1 }

/-- Embedding of `BoundedList::tryRotateLists` taking a
`shared_ptr<AtomicList<T>>&` expectation (BoundedList.h lines 84-146).  The second result component is `true`
when the function throws (the `make_shared` of the fresh list, modelled
by `listAllocOk = false`).  The CAS on `_isRotating` fails exactly when
the flag is already `true`; the identity check compares the reloaded
`_current` against the caller's expectation by pointer identity. -/
def BoundedList.tryRotateLists (s : BoundedList) (expected : AtomicList)
    (listAllocOk : Bool) : BoundedList × Bool :=
  if s.isRotating then
    (s, false)
  else
    let s1 := { s with isRotating := true }
    if s1.current.id ≠ expected.id then
      ({ s1 with isRotating := false }, false)
    else
      let s2 := { s1 with memoryUsage := 0 }
      if ¬ listAllocOk then
        (s2, true)
      else
        let newList : AtomicList := ⟨s2.nextId, []⟩
        let s3 := { s2 with current := newList, nextId := s2.nextId + 1 }
        let toDelete := s3.history.getD s3.ringBufferPos none
        let s4 := { s3 with
          history := s3.history.set s3.ringBufferPos (some expected)
          ringBufferPos := (s3.ringBufferPos + 1) % s3.maxHistory }
        let s5 := match toDelete with
          | some dead => { s4 with trash := s4.trash ++ [dead] }
          | none => s4
        ({ s5 with isRotating := false }, false)

/-- Embedding of `BoundedList::prepend(T&&)` (BoundedList.h lines 63-81).  Reads the
record's size, loads the current list and prepends to it (the node
allocation may silently drop the record), adds the size to
`_memoryUsage` obtaining the new total, and when that total reaches
`_memoryThreshold` attempts a rotation passing the loaded current list
as the expectation.  The `Bool` result is `true` when the call throws. -/
def BoundedList.prepend (s : BoundedList) (nodeAllocOk listAllocOk : Bool)
    (v : Rec) : BoundedList × Bool :=
  let memUsage := v.memoryUsage
  let current := s.current.prepend nodeAllocOk v
  let s1 := { s with current := current }
  let newUsage := s1.memoryUsage + memUsage
  let s2 := { s1 with memoryUsage := newUsage }
  if newUsage ≥ s2.memoryThreshold then
    s2.tryRotateLists current listAllocOk
  else
    (s2, false)

/-- The snapshot vector built by `BoundedList::forItems` under the mutex
(BoundedList.h lines 152-164): the current list first, then for
`i = 0, …, maxHistory-1` the non-null history entry at position
`(ringBufferPos + maxHistory - 1 - i) % maxHistory`. -/
def BoundedList.scanLists (s : BoundedList) : List (List Rec) :=
  s.current.getSnapshot ::
    (List.range s.maxHistory).filterMap (fun i =>
      match s.history.getD ((s.ringBufferPos + s.maxHistory - 1 - i) % s.maxHistory) none with
      | some l => some l.getSnapshot
      | none => none)

/-- Embedding of `BoundedList::forItems(F&&)` (BoundedList.h lines 148-174): walk
every snapshot list from its head, invoking the callback on each item;
the sequence of visited records. -/
def BoundedList.forItems (s : BoundedList) : List Rec :=
  (s.scanLists).flatten

/-- Embedding of `BoundedList::clearTrash()` (BoundedList.h lines 176-183): drops all
trash references, returning how many were freed. -/
def BoundedList.clearTrash (s : BoundedList) : Nat × BoundedList :=
  (s.trash.length, { s with trash := [] })

/-- An external event for the `BoundedList` trace semantics: one call to
`prepend` (with the allocator oracle for the node and for a possible
fresh list during rotation) or one call to `clearTrash`. -/
inductive BLEvent where
  | append (nodeAllocOk listAllocOk : Bool) (v : Rec)
  | drain
deriving DecidableEq, Repr

/-- One event applied to a `BoundedList` state.  A throwing `prepend`
leaves the object in its partially mutated state, as in C++. -/
def BoundedList.step (s : BoundedList) (e : BLEvent) : BoundedList :=
  match e with
  | .append n l v => (s.prepend n l v).1
  | .drain => (s.clearTrash).2

/-- A sequence of events applied in order. -/
def BoundedList.runTrace (s : BoundedList) (tr : List BLEvent) : BoundedList :=
  tr.foldl BoundedList.step s

/-- A `BoundedList` state is reachable when it arises from a successful
construction followed by some sequence of `prepend` / `clearTrash`
calls. -/
def BoundedList.Reachable (s : BoundedList) : Prop :=
  ∃ t c s0 tr, BoundedList.init t c = .ok s0 ∧ s = s0.runTrace tr

/-- Structural well-formedness of a `BoundedList` state: the
configuration is valid, the ring has exactly `maxHistory` entries and
the ring position is in range. -/
def BoundedList.WF (s : BoundedList) : Prop :=
  0 < s.memoryThreshold ∧ 2 ≤ s.maxHistory ∧
    s.history.length = s.maxHistory ∧ s.ringBufferPos < s.maxHistory

/-!
## The epoch-protected cell (`ResourceManager<T>`, ResourceManager.h)

The resource is a value of a type `α`; the atomic pointer
`current_resource` is `Option α` (`none` models null).  Epoch slots are
a list of 64-bit values; since the spec and code only ever increment the
epoch, plain `Nat` suffices (the counter starts at 1 and is never
wrapped in any reachable execution we consider).
-/

/-- The constant `EPOCH_SLOTS` (ResourceManager.h line 30). -/
def EPOCH_SLOTS : Nat := 128

/-- The state of a `ResourceManager<T>` instance.  `writerMutexHeld`
models whether `writer_mutex` is currently locked. -/
structure Cell (α : Type) where
  currentResource : Option α
  globalEpoch : Nat
  slots : List Nat
  writerMutexHeld : Bool
deriving Repr

/-- The `ResourceManager` constructor (ResourceManager.h lines 60-64):
all 128 slots zero, `global_epoch` starts at 1, the initial resource
installed. -/
def Cell.init (initial : α) : Cell α :=
  { currentResource := some initial
    globalEpoch := 1
    slots := List.replicate EPOCH_SLOTS 0
    writerMutexHeld := false }

/-- Embedding of `ResourceManager::can_reclaim` (ResourceManager.h lines
46-57): scan the slots and return `false` as soon as a slot is nonzero
and at most the given epoch; otherwise `true`. -/
def Cell.can_reclaim (s : Cell α) (epoch : Nat) : Bool :=
  s.slots.all (fun slotEpoch => !(slotEpoch ≠ 0 && slotEpoch ≤ epoch))

/-- The slot-claiming loop of `ResourceManager::read` (ResourceManager.h
lines 91-120): starting from the thread's slot, try to CAS each slot
from 0 to the captured epoch, advancing circularly on failure.  In the
sequential embedding the loop terminates exactly when some slot is free;
`none` models the loop spinning forever (all slots occupied and no
concurrent release). -/
def Cell.findFreeSlot (slots : List Nat) (start : Nat) : Option Nat :=
  (List.range slots.length).findSome? (fun k =>
    let i := (start + k) % slots.length
    if slots.getD i 1 = 0 then some i else none)

/-- What one call to `ResourceManager::read` did. -/
structure ReadResult (α ρ : Type) where
  result : ρ
  /-- Set when the visitor threw and the exception escaped `read`. -/
  threw : Bool
  state : Cell α
deriving Repr

/-- Embedding of `ResourceManager::read(F&&)` (ResourceManager.h lines 82-121) for a
visitor that may throw (`.error` models a raised exception).  `start` is
this thread's slot index; `dflt` is the value-initialized `result{}`.
After claiming a slot with the captured epoch, the resource pointer is
loaded; if null the visitor is skipped, otherwise it runs and its
exception, if any, propagates *before* the `store(0)` that releases the
slot.  `none` models the non-terminating case of a fully occupied slot
array. -/
def Cell.read (s : Cell α) (start : Nat) (f : α → Except Unit ρ) (dflt : ρ) :
    Option (ReadResult α ρ) :=
  let currentEpoch := s.globalEpoch
  match Cell.findFreeSlot s.slots start with
  | none => none
  | some i =>
    let claimed := { s with slots := s.slots.set i currentEpoch }
    match claimed.currentResource with
    | none =>
        some ⟨dflt, false, { claimed with slots := claimed.slots.set i 0 }⟩
    | some v =>
        match f v with
        | .ok r =>
            some ⟨r, false, { claimed with slots := claimed.slots.set i 0 }⟩
        | .error _ =>
            some ⟨dflt, true, claimed⟩

/-- What one call to `ResourceManager::update` did. -/
structure UpdateResult (α : Type) where
  oldValue : Option α
  retireEpoch : Nat
  /-- Whether `writer_mutex` was held by this call across the
  `exchange` on `current_resource` and the `fetch_add` on
  `global_epoch`. -/
  lockHeldDuringCritical : Bool
  state : Cell α
deriving Repr

/-- Embedding of `ResourceManager::update` (ResourceManager.h lines
124-140).  The guard `std::lock_guard lock(writer_mutex,
std::adopt_lock)` *adopts* the mutex without locking it, so the mutex is
held during the critical section only if the caller already held it;
the guard's destructor unlocks the mutex at scope exit.  The exchange on
`current_resource` returns the old pointer and `fetch_add(1)` on
`global_epoch` returns its prior value, the retire epoch. -/
def Cell.update (s : Cell α) (newResource : Option α) : UpdateResult α :=
  let heldDuringCritical := s.writerMutexHeld
  let oldPtr := s.currentResource
  let retireEpoch := s.globalEpoch
  { oldValue := oldPtr
    retireEpoch := retireEpoch
    lockHeldDuringCritical := heldDuringCritical
    state := { s with
      currentResource := newResource
      globalEpoch := s.globalEpoch + 1
      writerMutexHeld := false } }

/-!
## Spec-side description of the scan order

The spec describes the history walk of `scan` as visiting "the most
recently frozen list … immediately after the active one, proceeding
backward to the oldest".  Since `next_slot` (`_ringBufferPos`) is the
slot that will be written next, the most recently frozen list sits just
left of it; walking backwards with wraparound is rotating the ring so
that it starts at the oldest slot and reversing.
-/

/-- Modelled from the spec: the non-empty history entries in order from
most recently frozen to oldest. -/
def BoundedList.historyNewestFrozenFirst (s : BoundedList) : List AtomicList :=
  ((s.history.rotate s.ringBufferPos).reverse).filterMap id

/-!
## Helper lemmas
-/

theorem BoundedList.init_WF {t c : Nat} {s : BoundedList}
    (h : BoundedList.init t c = .ok s) : s.WF := by
  unfold BoundedList.init at h
  split at h
  · exact absurd h (by simp)
  · next hcond =>
    push_neg at hcond
    cases h
    refine ⟨?_, ?_, ?_, ?_⟩
    · dsimp only; omega
    · dsimp only; omega
    · dsimp only; simp
    · dsimp only; omega

theorem BoundedList.tryRotateLists_WF (s : BoundedList) (e : AtomicList)
    (l : Bool) (h : s.WF) : (s.tryRotateLists e l).1.WF := by
  obtain ⟨h1, h2, h3, h4⟩ := h
  simp only [BoundedList.tryRotateLists]
  split
  · exact ⟨h1, h2, h3, h4⟩
  · split
    · exact ⟨h1, h2, h3, h4⟩
    · split
      · exact ⟨h1, h2, h3, h4⟩
      · split
        · exact ⟨h1, h2, by simpa using h3, Nat.mod_lt _ (by omega)⟩
        · exact ⟨h1, h2, by simpa using h3, Nat.mod_lt _ (by omega)⟩

theorem BoundedList.prepend_WF (s : BoundedList) (n l : Bool) (v : Rec)
    (h : s.WF) : (s.prepend n l v).1.WF := by
  obtain ⟨h1, h2, h3, h4⟩ := h
  simp only [BoundedList.prepend]
  split
  · exact BoundedList.tryRotateLists_WF _ _ _ ⟨h1, h2, h3, h4⟩
  · exact ⟨h1, h2, h3, h4⟩

theorem BoundedList.step_WF (s : BoundedList) (e : BLEvent) (h : s.WF) :
    (s.step e).WF := by
  obtain ⟨h1, h2, h3, h4⟩ := h
  cases e with
  | append n l v => exact BoundedList.prepend_WF _ _ _ _ ⟨h1, h2, h3, h4⟩
  | drain => exact ⟨h1, h2, h3, h4⟩

theorem BoundedList.runTrace_WF (tr : List BLEvent) (s : BoundedList)
    (h : s.WF) : (s.runTrace tr).WF := by
  induction tr generalizing s with
  | nil => exact h
  | cons e tr ih => exact ih _ (BoundedList.step_WF s e h)

theorem BoundedList.Reachable.wf {s : BoundedList} (h : s.Reachable) :
    s.WF := by
  obtain ⟨t, c, s0, tr, hinit, hrun⟩ := h
  subst hrun
  exact BoundedList.runTrace_WF tr s0 (BoundedList.init_WF hinit)

/-- The ring walk of `forItems` — positions
`(pos + n - 1 - i) % n` for `i = 0, …, n-1` — reads the ring as the
rotation by `pos` reversed. -/
theorem ringWalk_eq_rotate_reverse {α : Type} (L : List α) (d : α) (pos : Nat)
    (hn : 0 < L.length) :
    (List.range L.length).map
        (fun i => L.getD ((pos + L.length - 1 - i) % L.length) d)
      = (L.rotate pos).reverse := by
  apply List.ext_getElem
  · simp
  · intro i h1 h2
    have hi : i < L.length := by simpa using h1
    have hmod : (pos + L.length - 1 - i) % L.length < L.length :=
      Nat.mod_lt _ hn
    simp only [List.getElem_map, List.getElem_range]
    rw [List.getElem_reverse, List.getElem_rotate, List.getD_eq_getElem _ _ hmod]
    have harg : pos + L.length - 1 - i = (L.rotate pos).length - 1 - i + pos := by
      simp only [List.length_rotate]
      omega
    simp only [harg]

/-- Filtering the non-null entries and then projecting is the same as
filtering the projections of the entries. -/
theorem filterMap_map_option_eq {α β : Type} (M : List (Option α)) (f : α → β) :
    M.filterMap (fun o => o.map f) = (M.filterMap id).map f := by
  induction M with
  | nil => rfl
  | cons o M ih => cases o <;> simp [ih]

/-- Counting across the non-null entries of an option list, with null
entries contributing zero. -/
theorem sum_counts_filterMap (M : List (Option AtomicList)) (r : Rec) :
    ((M.filterMap id).map (fun L => L.items.count r)).sum
      = (M.map (fun o =>
          match o with
          | some L => L.items.count r
          | none => 0)).sum := by
  induction M with
  | nil => rfl
  | cons o M ih => cases o <;> simp [ih]

/-!
## Claims
-/

/-- C7: `can_reclaim(E)` returns `false` if and only if some slot holds
a value that is nonzero and at most `E`; equivalently it returns `true`
exactly when every slot is free or holds an epoch strictly greater than
`E` (no live reader entered its read scope at or before `E`). -/
theorem can_reclaim_iff {α : Type} (s : Cell α) (E : Nat) :
    (s.can_reclaim E = false ↔ ∃ se ∈ s.slots, se ≠ 0 ∧ se ≤ E) ∧
    (s.can_reclaim E = true ↔ ∀ se ∈ s.slots, se = 0 ∨ E < se) := by
  have htrue : s.can_reclaim E = true ↔ ∀ se ∈ s.slots, se = 0 ∨ E < se := by
    simp only [Cell.can_reclaim, List.all_eq_true]
    constructor
    · intro h se hse
      have := h se hse
      by_cases h0 : se = 0
      · exact Or.inl h0
      · refine Or.inr ?_
        by_contra hle
        simp [h0, Nat.le_of_not_lt hle] at this
    · intro h se hse
      rcases h se hse with h0 | hgt
      · simp [h0]
      · simp [Nat.not_le_of_lt hgt]
  refine ⟨?_, htrue⟩
  rw [← Bool.not_eq_true, htrue]
  push_neg
  constructor
  · rintro ⟨se, hse, hne, hle⟩
    exact ⟨se, hse, hne, by omega⟩
  · rintro ⟨se, hse, hne, hle⟩
    exact ⟨se, hse, hne, by omega⟩

/-- C8: `update` returns the displaced old value; successive `update`
calls return strictly increasing retire epochs (each update increments
`global_epoch` by one and returns its prior value); a freshly
constructed cell has `global_epoch = 1`, so its first `update` returns
retire epoch 1 together with the initial value. -/
theorem update_epoch_monotone_from_one {α : Type} (s : Cell α)
    (v1 v2 : Option α) (w : α) :
    (s.update v1).oldValue = s.currentResource ∧
    (s.update v1).retireEpoch < ((s.update v1).state.update v2).retireEpoch ∧
    (Cell.init w).globalEpoch = 1 ∧
    ((Cell.init w).update v1).retireEpoch = 1 ∧
    ((Cell.init w).update v1).oldValue = some w := by
  refine ⟨rfl, ?_, rfl, rfl, rfl⟩
  simp [Cell.update]

/-- C9: `BoundedList` construction fails with an invalid-argument error
exactly when `memoryThreshold = 0` or `maxHistory < 2`, and succeeds on
all other arguments. -/
theorem construction_validity (t c : Nat) :
    (BoundedList.init t c = .error "invalid_argument" ↔ t = 0 ∨ c < 2) ∧
    ((∃ s, BoundedList.init t c = .ok s) ↔ ¬(t = 0 ∨ c < 2)) := by
  by_cases h : t = 0 ∨ c < 2
  · simp [BoundedList.init, h]
  · simp [BoundedList.init, h]

/-- C2: contrary to the claim, `ResourceManager::update` never acquires
`writer_mutex`: the guard is constructed with `std::adopt_lock`, which
adopts without locking, so on a freshly constructed cell (mutex not
held) the pointer exchange and the epoch fetch-add run with the mutex
unheld. -/
theorem update_critical_section_runs_unlocked :
    (Cell.init "A").writerMutexHeld = false ∧
    ((Cell.init "A").update (some "BBBB")).lockHeldDuringCritical = false := by
  exact ⟨rfl, rfl⟩

set_option maxRecDepth 10000

/-- C6: evaluation of `ResourceManager::read` at a state with all 128
slots free, `global_epoch = 1` and a visitor that raises: the read
claims slot 0 with epoch 1, the visitor's exception escapes, and the
slot is *not* released — it still holds 1 after the read, so
`can_reclaim 1` is now false, contradicting the claim that the slot is
released on every exit path. -/
theorem read_throwing_visitor_leaks_slot :
    ((Cell.init (7 : Nat)).read 0 (fun _ => .error ()) 0).map
        (fun res => (res.threw, res.state.slots.getD 0 99,
                     res.state.can_reclaim 1))
      = some (true, 1, false) := by
  decide

/-- Record-field equality for dropping a redundant `isRotating` update. -/
theorem BoundedList.eta_isRotating (s : BoundedList) (h : s.isRotating = false) :
    { s with isRotating := false } = s := by
  cases s
  simp_all

/-- C1 counterexample: on a freshly constructed log with
`memoryThreshold = 10` and `maxHistory = 2`, appending a record of size
10 whose node allocation succeeds but where the rotation's fresh-list
allocation fails makes `prepend` throw to the caller — refuting "never
throws to the caller … rotation cannot fail". -/
theorem append_can_throw_cex :
    (BoundedList.init 10 2).map
        (fun s0 => (s0.prepend true false ⟨0, 10⟩).2) = .ok true := by
  rfl

/-- C1 (amended): a node-allocation failure inside `append` is silently
swallowed (the record is dropped), but `append` throws to the caller
exactly when it attempts a rotation that wins the gate and the
allocation of the fresh active list fails — so rotation *can* fail, and
that failure propagates out of `append`. -/
theorem append_throws_iff_rotation_alloc_fails (s : BoundedList)
    (n l : Bool) (v : Rec) :
    (s.prepend n l v).2 = true ↔
      s.isRotating = false ∧
        s.memoryThreshold ≤ s.memoryUsage + v.memoryUsage ∧ l = false := by
  simp only [BoundedList.prepend, BoundedList.tryRotateLists]
  split_ifs <;> simp_all

/-- C4: a rotation that wins the `rotating` gate and finds `current`
identical to the expectation (and whose fresh-list allocation succeeds)
resets `memoryUsage` to 0, installs a fresh empty list as current,
stores the retired expectation into `history[ringBufferPos]`, advances
the position modulo `maxHistory`, and appends the evicted slot's old
reference to the trash when that reference was non-null; when the gate
was already held, or current differs from the expectation, everything is
left unchanged. -/
theorem rotation_effects (s : BoundedList) (expected : AtomicList) (l : Bool) :
    (s.isRotating = true → s.tryRotateLists expected l = (s, false)) ∧
    (s.isRotating = false → s.current.id ≠ expected.id →
      s.tryRotateLists expected l = (s, false)) ∧
    (s.isRotating = false → s.current.id = expected.id →
      ((s.tryRotateLists expected true).1.memoryUsage = 0 ∧
       (s.tryRotateLists expected true).1.current = ⟨s.nextId, []⟩ ∧
       (s.tryRotateLists expected true).1.history =
         s.history.set s.ringBufferPos (some expected) ∧
       (s.tryRotateLists expected true).1.ringBufferPos =
         (s.ringBufferPos + 1) % s.maxHistory ∧
       (s.tryRotateLists expected true).1.trash =
         (match s.history.getD s.ringBufferPos none with
          | some dead => s.trash ++ [dead]
          | none => s.trash) ∧
       (s.tryRotateLists expected true).1.isRotating = false ∧
       (s.tryRotateLists expected true).2 = false)) := by
  refine ⟨?_, ?_, ?_⟩
  · intro h
    simp [BoundedList.tryRotateLists, h]
  · intro h hne
    simp only [BoundedList.tryRotateLists, h, if_neg]
    rw [if_neg (by simp)]
    rw [if_pos (by simpa using hne)]
    rw [BoundedList.eta_isRotating s h]
  · intro h hid
    rcases hm : s.history[s.ringBufferPos]? with _ | (_ | dead) <;>
      simp [BoundedList.tryRotateLists, h, hid, List.getD, hm]

/-- C5: `append` prepends the record to the loaded active list and adds
its size to the accounted memory; when the resulting total stays below
the threshold nothing else happens, and when it reaches the threshold a
rotation is attempted with the loaded active reference as the
expectation — visible in the winning case through the fresh empty
current list, the reset counter and the retired reference (including the
just-prepended record) landing in the ring slot. -/
theorem append_accounting_and_rotation_trigger (s : BoundedList)
    (n l : Bool) (v : Rec) :
    (s.memoryUsage + v.memoryUsage < s.memoryThreshold →
      s.prepend n l v =
        ({ s with current := s.current.prepend n v,
                  memoryUsage := s.memoryUsage + v.memoryUsage }, false)) ∧
    (s.memoryThreshold ≤ s.memoryUsage + v.memoryUsage → s.isRotating = false →
      (s.prepend n true v).1.memoryUsage = 0 ∧
      (s.prepend n true v).1.current = ⟨s.nextId, []⟩ ∧
      (s.prepend n true v).1.history =
        s.history.set s.ringBufferPos (some (s.current.prepend n v)) ∧
      (s.prepend n true v).2 = false) := by
  constructor
  · intro h
    simp only [BoundedList.prepend]
    rw [if_neg (by simp; omega)]
  · intro hth h
    simp only [BoundedList.prepend]
    rw [if_pos (by simpa using hth)]
    rcases hm : s.history[s.ringBufferPos]? with _ | (_ | dead) <;>
      simp [BoundedList.tryRotateLists, h, List.getD, hm]

/-- C10: when the node allocation fails during `append`, the record is
dropped (below the threshold, the state changes only by the accounted
memory growing by the record's reported size, so accounted bytes exceed
the bytes actually stored), and the phantom size still counts toward the
rotation threshold: a dropped record at the threshold still triggers a
full rotation. -/
theorem dropped_record_still_accounted (s : BoundedList) (l : Bool) (v : Rec) :
    (s.memoryUsage + v.memoryUsage < s.memoryThreshold →
      (s.prepend false l v).1 =
        { s with memoryUsage := s.memoryUsage + v.memoryUsage } ∧
      (s.prepend false l v).2 = false) ∧
    (s.isRotating = false → s.memoryThreshold ≤ s.memoryUsage + v.memoryUsage →
      (s.prepend false true v).1.current = ⟨s.nextId, []⟩ ∧
      (s.prepend false true v).1.memoryUsage = 0) := by
  constructor
  · intro h
    simp only [BoundedList.prepend, AtomicList.prepend]
    rw [if_neg (by omega)]
    exact ⟨rfl, rfl⟩
  · intro h hth
    simp only [BoundedList.prepend, AtomicList.prepend]
    rw [if_pos (by simpa using hth)]
    rcases hm : s.history[s.ringBufferPos]? with _ | (_ | dead) <;>
      simp [BoundedList.tryRotateLists, h, List.getD, hm]

/-- A concrete well-below-threshold state: threshold 100, capacity 2,
one record of size 10 already active. -/
def blSmall : BoundedList :=
  { current := ⟨0, [⟨1, 10⟩]⟩
    memoryUsage := 10
    isRotating := false
    history := [none, none]
    trash := []
    ringBufferPos := 0
    memoryThreshold := 100
    maxHistory := 2
    nextId := 1 }

/-- A concrete state just below the threshold (64), whose ring slot 0
already holds a frozen list, so the next large append rotates and
evicts. -/
def blFull : BoundedList :=
  { current := ⟨5, [⟨1, 30⟩]⟩
    memoryUsage := 54
    isRotating := false
    history := [some ⟨2, [⟨9, 9⟩]⟩, none]
    trash := []
    ringBufferPos := 0
    memoryThreshold := 64
    maxHistory := 2
    nextId := 6 }

/-- Witness for C4 at concrete inputs: a gate-held call and a
mismatched-expectation call are no-ops, and a winning call performs the
full rotation. -/
theorem rotation_effects_witness :
    ({ blFull with isRotating := true }.isRotating = true ∧
     BoundedList.tryRotateLists { blFull with isRotating := true } ⟨5, []⟩ true
        = ({ blFull with isRotating := true }, false)) ∧
    (blFull.isRotating = false ∧ blFull.current.id ≠ (⟨7, []⟩ : AtomicList).id ∧
     blFull.tryRotateLists ⟨7, []⟩ true = (blFull, false)) ∧
    (blFull.isRotating = false ∧ blFull.current.id = (⟨5, []⟩ : AtomicList).id ∧
     ((blFull.tryRotateLists ⟨5, []⟩ true).1.memoryUsage = 0 ∧
      (blFull.tryRotateLists ⟨5, []⟩ true).1.current = ⟨blFull.nextId, []⟩ ∧
      (blFull.tryRotateLists ⟨5, []⟩ true).1.history =
        blFull.history.set blFull.ringBufferPos (some ⟨5, []⟩) ∧
      (blFull.tryRotateLists ⟨5, []⟩ true).1.ringBufferPos =
        (blFull.ringBufferPos + 1) % blFull.maxHistory ∧
      (blFull.tryRotateLists ⟨5, []⟩ true).1.trash =
        (match blFull.history.getD blFull.ringBufferPos none with
         | some dead => blFull.trash ++ [dead]
         | none => blFull.trash) ∧
      (blFull.tryRotateLists ⟨5, []⟩ true).1.isRotating = false ∧
      (blFull.tryRotateLists ⟨5, []⟩ true).2 = false)) :=
  ⟨⟨rfl, (rotation_effects { blFull with isRotating := true } ⟨5, []⟩ true).1 rfl⟩,
   ⟨rfl, by decide, (rotation_effects blFull ⟨7, []⟩ true).2.1 rfl (by decide)⟩,
   ⟨rfl, rfl, (rotation_effects blFull ⟨5, []⟩ true).2.2 rfl rfl⟩⟩

/-- Witness for C5 at concrete inputs: a below-threshold append only
stores and accounts the record; an at-threshold append rotates with the
loaded reference as expectation. -/
theorem append_accounting_witness :
    (blSmall.memoryUsage + (Rec.mk 2 10).memoryUsage < blSmall.memoryThreshold ∧
     blSmall.prepend true true ⟨2, 10⟩ =
       ({ blSmall with current := blSmall.current.prepend true ⟨2, 10⟩,
                       memoryUsage :=
                         blSmall.memoryUsage + (Rec.mk 2 10).memoryUsage },
        false)) ∧
    (blFull.memoryThreshold ≤ blFull.memoryUsage + (Rec.mk 3 10).memoryUsage ∧
     blFull.isRotating = false ∧
     ((blFull.prepend true true ⟨3, 10⟩).1.memoryUsage = 0 ∧
      (blFull.prepend true true ⟨3, 10⟩).1.current = ⟨blFull.nextId, []⟩ ∧
      (blFull.prepend true true ⟨3, 10⟩).1.history =
        blFull.history.set blFull.ringBufferPos
          (some (blFull.current.prepend true ⟨3, 10⟩)) ∧
      (blFull.prepend true true ⟨3, 10⟩).2 = false)) :=
  ⟨⟨by decide,
    (append_accounting_and_rotation_trigger blSmall true true ⟨2, 10⟩).1 (by decide)⟩,
   ⟨by decide, rfl,
    (append_accounting_and_rotation_trigger blFull true true ⟨3, 10⟩).2 (by decide) rfl⟩⟩

/-- Witness for C10 at concrete inputs: a dropped record of size 10 is
still accounted, and a dropped record at the threshold still triggers a
rotation. -/
theorem dropped_record_witness :
    (blSmall.memoryUsage + (Rec.mk 4 10).memoryUsage < blSmall.memoryThreshold ∧
     ((blSmall.prepend false true ⟨4, 10⟩).1 =
        { blSmall with memoryUsage :=
            blSmall.memoryUsage + (Rec.mk 4 10).memoryUsage } ∧
      (blSmall.prepend false true ⟨4, 10⟩).2 = false)) ∧
    (blFull.isRotating = false ∧
     blFull.memoryThreshold ≤ blFull.memoryUsage + (Rec.mk 4 10).memoryUsage ∧
     ((blFull.prepend false true ⟨4, 10⟩).1.current = ⟨blFull.nextId, []⟩ ∧
      (blFull.prepend false true ⟨4, 10⟩).1.memoryUsage = 0)) :=
  ⟨⟨by decide, (dropped_record_still_accounted blSmall true ⟨4, 10⟩).1 (by decide)⟩,
   ⟨rfl, by decide, (dropped_record_still_accounted blFull true ⟨4, 10⟩).2 rfl (by decide)⟩⟩

/-- C3: for every reachable BoundedLog state, `scan` visits the active
list's snapshot first and then the snapshots of the non-empty history
entries in order from most recently frozen to oldest (each visited list
newest first, as it is walked from the head); and every live record is
delivered exactly once — the number of visits of any record equals its
number of live occurrences across the active list and all ring
entries. -/
theorem scan_delivers_each_live_record_once_in_order (s : BoundedList)
    (h : s.Reachable) :
    s.scanLists =
      s.current.getSnapshot ::
        s.historyNewestFrozenFirst.map AtomicList.getSnapshot ∧
    ∀ r : Rec, (s.forItems).count r =
      s.current.items.count r +
        (s.history.map (fun o =>
          match o with
          | some L => L.items.count r
          | none => 0)).sum := by
  obtain ⟨hth, hmh, hlen, hpos⟩ := h.wf
  have hn : 0 < s.history.length := by omega
  have hkey : (List.range s.maxHistory).filterMap (fun i =>
      match s.history.getD
          ((s.ringBufferPos + s.maxHistory - 1 - i) % s.maxHistory) none with
      | some l => some l.getSnapshot
      | none => none)
      = ((s.history.rotate s.ringBufferPos).reverse).filterMap
          (fun o => o.map AtomicList.getSnapshot) := by
    have hfun : (fun i =>
        match s.history.getD
            ((s.ringBufferPos + s.history.length - 1 - i) % s.history.length)
            none with
        | some l => some l.getSnapshot
        | none => none)
        = (fun o => o.map AtomicList.getSnapshot) ∘
            (fun i => s.history.getD
              ((s.ringBufferPos + s.history.length - 1 - i) % s.history.length)
              none) := by
      funext i
      rcases hgd : s.history.getD
          ((s.ringBufferPos + s.history.length - 1 - i) % s.history.length)
          none with _ | l <;>
        (simp only [List.getD, List.get?_eq_getElem?] at hgd; simp [hgd])
    rw [← hlen, hfun, ← List.filterMap_map,
      ringWalk_eq_rotate_reverse s.history none s.ringBufferPos hn]
  constructor
  · simp only [BoundedList.scanLists, BoundedList.historyNewestFrozenFirst]
    rw [hkey, filterMap_map_option_eq]
  · intro r
    simp only [BoundedList.forItems, BoundedList.scanLists]
    rw [hkey, List.flatten_cons, List.count_append, List.count_flatten,
      filterMap_map_option_eq, List.map_map]
    have h2 : (List.count r ∘ AtomicList.getSnapshot) =
        fun L => L.items.count r := rfl
    have hperm :
        ((s.history.rotate s.ringBufferPos).reverse).Perm s.history :=
      (List.reverse_perm _).trans (s.history.rotate_perm s.ringBufferPos)
    rw [h2, sum_counts_filterMap ((s.history.rotate s.ringBufferPos).reverse) r,
      (hperm.map _).sum_eq]
    rfl

/-- The state of a freshly constructed BoundedLog(64, 4). -/
def blInit64 : BoundedList :=
  { current := ⟨0, []⟩
    memoryUsage := 0
    isRotating := false
    history := List.replicate 4 none
    trash := []
    ringBufferPos := 0
    memoryThreshold := 64
    maxHistory := 4
    nextId := 1 }

/-- Three size-30 appends on BoundedLog(64, 4); the second crosses the
threshold, so the final state has one frozen list in the ring. -/
def blScanState : BoundedList :=
  blInit64.runTrace
    [.append true true ⟨1, 30⟩, .append true true ⟨2, 30⟩,
     .append true true ⟨3, 30⟩]

/-- Witness for C3 at a concrete reachable state obtained by three
appends with one rotation. -/
theorem scan_delivers_witness :
    blScanState.Reachable ∧
    (blScanState.scanLists =
       blScanState.current.getSnapshot ::
         blScanState.historyNewestFrozenFirst.map AtomicList.getSnapshot ∧
     ∀ r : Rec, (blScanState.forItems).count r =
       blScanState.current.items.count r +
         (blScanState.history.map (fun o =>
           match o with
           | some L => L.items.count r
           | none => 0)).sum) :=
  have hr : blScanState.Reachable :=
    ⟨64, 4, blInit64,
     [.append true true ⟨1, 30⟩, .append true true ⟨2, 30⟩,
      .append true true ⟨3, 30⟩], by rfl, rfl⟩
  ⟨hr, scan_delivers_each_live_record_once_in_order blScanState hr⟩
